import Mathlib

/-!
Shallow embedding of the student-records HTTP API in `src/app.js`.

The program is an Express application persisting an array of student
records to a JSON file.  We embed:

* a model `JSVal` of the JavaScript primitive values that can occur in
  request bodies and in the persisted file (numbers are modelled as
  integers; non-integral floats are outside the model's scope),
* JavaScript loose equality (the `==` used by the lookup in
  `GET /students/:id` and `PUT /students/:id`), strict equality (the
  `===` used by the duplicate check in `POST /students`), truthiness,
  and the `typeof year !== "number"` test,
* the four route handlers as pure functions of the request data, the
  result of `readDB` (`none` models a read/parse failure) and a flag
  telling whether `writeDB` succeeds,
* the persistence codec: `writeDB` is `JSON.stringify(data, null, 2)`
  and `readDB` is `JSON.parse`, modelled on the documents this
  application persists (a top-level array of flat student objects).
-/

namespace StudentApp

/-- JavaScript primitive values as they occur in this program's request
bodies and persisted JSON.  Numbers are modelled as integers. -/
inductive JSVal where
  | undefined
  | null
  | bool (b : Bool)
  | num (n : Int)
  | str (s : String)
deriving DecidableEq, Repr

/-- JavaScript truthiness, as used by `!id || !firstName || !lastName`
in the POST handler (src/app.js line 135). -/
def truthy : JSVal → Bool
  | .undefined => false
  | .null => false
  | .bool b => b
  | .num n => n != 0
  | .str s => s != ""

/-- The `typeof v === "number"` test from the POST handler's
`typeof year !== "number"` validation (src/app.js line 135). -/
def isNumberType : JSVal → Bool
  | .num _ => true
  | _ => false

/-- JavaScript strict equality `===` on the modelled values, as used by
`students.some(s => s.id === id)` (src/app.js line 142). -/
def strictEq : JSVal → JSVal → Bool
  | .undefined, .undefined => true
  | .null, .null => true
  | .bool a, .bool b => a == b
  | .num a, .num b => a == b
  | .str a, .str b => a == b
  | _, _ => false

/-- JSON / JS whitespace characters (space, tab, line feed, carriage
return). -/
def isWsChar (c : Char) : Bool :=
  c == ' ' || c == '\t' || c == '\n' || c == '\r'

/-- Value of a decimal digit character. -/
def digitValC (c : Char) : Nat := c.toNat - 48

/-- Decimal digits of a natural number, least significant first, with
explicit fuel so that the definition is structurally recursive (hence
kernel-evaluable).  `natDigitsFuel fuel n` is correct whenever
`n ≤ fuel`. -/
def natDigitsFuel : Nat → Nat → List Nat
  | 0, _ => []
  | fuel + 1, n => if n = 0 then [] else n % 10 :: natDigitsFuel fuel (n / 10)

/-- Decimal digits of `n`, least significant first (`[]` for `0`). -/
def natDigits (n : Nat) : List Nat := natDigitsFuel n n

/-- Value of a list of decimal digits given least significant first. -/
def valOfDigitsLSB : List Nat → Nat
  | [] => 0
  | d :: ds => d + 10 * valOfDigitsLSB ds

/-- The character for a decimal digit value. -/
def digitToChar (d : Nat) : Char :=
  Char.ofNat (48 + min d 9)

/-- Decimal numeral of a natural number, most significant digit
first. -/
def encNat (n : Nat) : List Char :=
  if n = 0 then ['0'] else ((natDigits n).map digitToChar).reverse

/-- Numeric value of a string of decimal digit characters (most
significant first); `none` if the string is empty or contains a
non-digit. -/
def digitsToNat (cs : List Char) : Option Nat :=
  if cs ≠ [] ∧ cs.all Char.isDigit then
    some (valOfDigitsLSB ((cs.map digitValC).reverse))
  else none

/-- The ECMAScript `StrWhiteSpaceChar` set (WhiteSpace and
LineTerminator code points), stripped by `ToNumber` around a string
numeric literal — wider than JSON's four whitespace characters. -/
def isJsWsChar (c : Char) : Bool :=
  let n := c.toNat
  n == 0x09 || n == 0x0a || n == 0x0b || n == 0x0c || n == 0x0d ||
  n == 0x20 || n == 0xa0 || n == 0x1680 ||
  (0x2000 ≤ n && n ≤ 0x200a) ||
  n == 0x2028 || n == 0x2029 || n == 0x202f || n == 0x205f ||
  n == 0x3000 || n == 0xfeff

/-- Value of a hexadecimal digit character. -/
def hexVal (c : Char) : Option Nat :=
  if '0' ≤ c ∧ c ≤ '9' then some (c.toNat - 48)
  else if 'a' ≤ c ∧ c ≤ 'f' then some (c.toNat - 87)
  else if 'A' ≤ c ∧ c ≤ 'F' then some (c.toNat - 55)
  else none

/-- Value of an octal digit character. -/
def octVal (c : Char) : Option Nat :=
  if '0' ≤ c ∧ c ≤ '7' then some (c.toNat - 48) else none

/-- Value of a binary digit character. -/
def binVal (c : Char) : Option Nat :=
  if c = '0' then some 0 else if c = '1' then some 1 else none

/-- Accumulate the value of a non-decimal integer literal body; `none`
on the first character that is not a digit of the base. -/
def radixAcc (b : Nat) (dv : Char → Option Nat) : Nat → List Char → Option Nat
  | acc, [] => some acc
  | acc, c :: cs =>
    match dv c with
    | some d => radixAcc b dv (acc * b + d) cs
    | none => none

/-- A `0x`/`0o`/`0b` literal body: at least one digit, all in range. -/
def radixNat (b : Nat) (dv : Char → Option Nat) (cs : List Char) : Option Int :=
  if cs = [] then none else (radixAcc b dv 0 cs).map (fun n => (n : Int))

/-- The exponent part after `e`/`E`: optionally signed decimal
digits. -/
def expValue : List Char → Option Int
  | '+' :: ds => (digitsToNat ds).map (fun n => (n : Int))
  | '-' :: ds => (digitsToNat ds).map (fun n => -(n : Int))
  | ds => (digitsToNat ds).map (fun n => (n : Int))

/-- Exact value of the decimal literal `ip . fp × 10^e` when it is an
integer: `none` when the mathematical value has a fractional part (such
a value equals no integer of the model). -/
def decValue (ip fp : List Char) (e : Int) : Option Int :=
  let M : Nat := valOfDigitsLSB (((ip ++ fp).map digitValC).reverse)
  let t : Int := e - (fp.length : Int)
  if 0 ≤ t then some ((M : Int) * (10 : Int) ^ t.toNat)
  else if M % 10 ^ ((-t).toNat) = 0 then some ((M / 10 ^ ((-t).toNat) : Nat) : Int)
  else none

/-- An unsigned `StrDecimalLiteral` without its sign: decimal digits
with optional fraction and optional exponent (`1e3`, `10.`, `10.0`,
`1.5e1`, `.0`); `Infinity` and every malformed remainder yield `none`,
as does any literal whose value is not an integer. -/
def parseUnsignedDec (cs : List Char) : Option Int :=
  let ip := cs.takeWhile Char.isDigit
  match cs.dropWhile Char.isDigit with
  | [] => if ip = [] then none else decValue ip [] 0
  | '.' :: r2 =>
    let fp := r2.takeWhile Char.isDigit
    if ip = [] ∧ fp = [] then none
    else
      match r2.dropWhile Char.isDigit with
      | [] => decValue ip fp 0
      | 'e' :: r3 => (expValue r3).bind (fun e => decValue ip fp e)
      | 'E' :: r3 => (expValue r3).bind (fun e => decValue ip fp e)
      | _ => none
  | 'e' :: r2 => if ip = [] then none else (expValue r2).bind (fun e => decValue ip [] e)
  | 'E' :: r2 => if ip = [] then none else (expValue r2).bind (fun e => decValue ip [] e)
  | _ => none

/-- A `StrDecimalLiteral`: optional sign, then the unsigned form. -/
def signedDec : List Char → Option Int
  | '+' :: rest => parseUnsignedDec rest
  | '-' :: rest => (parseUnsignedDec rest).map (fun n => -n)
  | cs => parseUnsignedDec cs

/-- Model of ECMAScript `ToNumber` on strings, at the integer
granularity of this development (JavaScript numbers are modelled as
exact integers; double rounding and overflow, which only matter beyond
the exactly-representable range, are outside the model's scope).  The
string is stripped of the full JS whitespace set; an empty remainder
converts to `0`; a string numeric literal — optionally signed decimal
with fraction and exponent, or an unsigned `0x`/`0o`/`0b` literal —
converts to its exact value when that value is an integer (`"1e3"` to
`1000`, `"0x10"` to `16`, `"10."` and `"10.0"` to `10`, `"1.5e1"` to
`15`, `"100e-2"` to `1`).  `none` covers the cases whose `ToNumber`
image equals no modelled integer: `NaN` from malformed literals, the
infinities, and non-integral values such as `"1.5"` or `"1e-2"`. -/
def jsStringToNumber (s : String) : Option Int :=
  let t := (((s.data.dropWhile isJsWsChar).reverse).dropWhile isJsWsChar).reverse
  match t with
  | [] => some 0
  | '0' :: c :: rest =>
    if c = 'x' ∨ c = 'X' then radixNat 16 hexVal rest
    else if c = 'o' ∨ c = 'O' then radixNat 8 octVal rest
    else if c = 'b' ∨ c = 'B' then radixNat 2 binVal rest
    else signedDec t
  | _ => signedDec t

/-- JavaScript loose (abstract) equality `==` on the modelled values, as
used by `s.id == req.params.id` in the GET-one and PUT handlers
(src/app.js lines 110 and 169): `null` and `undefined` are equal only
to each other, numbers and strings are compared after converting the
string to a number, and booleans are converted to numbers first. -/
def looseEq : JSVal → JSVal → Bool
  | .undefined, .undefined => true
  | .undefined, .null => true
  | .null, .undefined => true
  | .null, .null => true
  | .undefined, _ => false
  | _, .undefined => false
  | .null, _ => false
  | _, .null => false
  | .num a, .num b => a == b
  | .str a, .str b => a == b
  | .bool a, .bool b => a == b
  | .num a, .str s => jsStringToNumber s == some a
  | .str s, .num a => jsStringToNumber s == some a
  | .bool b, .num a => (if b then (1 : Int) else 0) == a
  | .num a, .bool b => (if b then (1 : Int) else 0) == a
  | .bool b, .str s => jsStringToNumber s == some (if b then (1 : Int) else 0)
  | .str s, .bool b => jsStringToNumber s == some (if b then (1 : Int) else 0)

/-- A student record: the four fields handled by the application.  A
field that is missing on a JavaScript object reads as `undefined`, so a
missing field is modelled by the value `JSVal.undefined`. -/
structure Student where
  id : JSVal
  firstName : JSVal
  lastName : JSVal
  year : JSVal
deriving DecidableEq, Repr

/-- The all-fields-missing student, used as the default of `List.getD`
in statements (never reached on in-bounds indices). -/
def defStudent : Student := ⟨.undefined, .undefined, .undefined, .undefined⟩

/-- A parsed JSON request body: a finite map from field names to values,
as an association list (later bindings shadow earlier ones, as in a
JavaScript object literal). -/
def Body := List (String × JSVal)

/-- Reading a field of the request body: the last binding for the key,
or `undefined` when the key is absent — exactly what destructuring
`const {id, firstName, lastName, year} = req.body` yields. -/
def getField (body : Body) (k : String) : JSVal :=
  match body.reverse.find? (fun p => p.1 == k) with
  | some p => p.2
  | none => .undefined

/-- A response body: a single student, the full collection, or an error
object `{error: msg}`. -/
inductive Response where
  | student (s : Student)
  | collection (l : List Student)
  | error (msg : String)
deriving DecidableEq, Repr

/-- Handler for `GET /students` (src/app.js lines 89-97): read the whole collection
and return it, or 500 on a storage failure.  `load` is the result of
`readDB()` (`none` = the promise rejected). -/
def getStudents (load : Option (List Student)) : Nat × Response :=
  match load with
  | none => (500, .error "Server Failed to read all students.")
  | some students => (200, .collection students)

/-- Handler for `GET /students/:id` (src/app.js lines 107-119): linear scan with
`students.find(s => s.id == req.params.id)` — loose equality against
the path parameter, which is always a string — returning the first
match, 404 when there is none, 500 on storage failure. -/
def getStudentById (pathId : String) (load : Option (List Student)) :
    Nat × Response :=
  match load with
  | none => (500, .error "Server failed to read students")
  | some students =>
    match students.find? (fun s => looseEq s.id (.str pathId)) with
    | none => (404, .error "Student not found")
    | some student => (200, .student student)

/-- Handler for `POST /students` (src/app.js lines 131-155).  Validation of the
destructured body fields happens before the store is read; a duplicate
is any stored record whose `id` is strictly (`===`) equal to the input
`id`; on success the new record — built from exactly the four
destructured fields, extra body fields dropped — is appended and the
collection written back.  The third component is the collection that
was durably written (`none` when no successful write happened);
`saveOk` tells whether `writeDB` succeeds. -/
def postStudents (body : Body) (load : Option (List Student))
    (saveOk : Bool) : Nat × Response × Option (List Student) :=
  let id := getField body "id"
  let firstName := getField body "firstName"
  let lastName := getField body "lastName"
  let year := getField body "year"
  if !truthy id || !truthy firstName || !truthy lastName
      || !isNumberType year then
    (400, .error "Invalid Body. Required: ID, firstName, lastName, year (number).", none)
  else
    match load with
    | none => (500, .error "Server cannot add student", none)
    | some students =>
      if students.any (fun s => strictEq s.id id) then
        (409, .error "ID already exists.", none)
      else
        let newStudent : Student := ⟨id, firstName, lastName, year⟩
        if saveOk then
          (201, .student newStudent, some (students ++ [newStudent]))
        else
          (500, .error "Server cannot add student", none)

/-- The in-place field assignments of the PUT handler (src/app.js lines
175-177): each of the three updatable fields is overwritten exactly
when the destructured body value is not `undefined`; `id` is never
touched. -/
def applyUpdate (body : Body) (s : Student) : Student :=
  let firstName := getField body "firstName"
  let lastName := getField body "lastName"
  let year := getField body "year"
  { s with
    firstName := if firstName == .undefined then s.firstName else firstName
    lastName := if lastName == .undefined then s.lastName else lastName
    year := if year == .undefined then s.year else year }

/-- Handler for `PUT /students/:id` (src/app.js lines 165-185): locate the record
with `findIndex(s => s.id == req.params.id)` (loose equality, first
match), 404 when absent, otherwise mutate the located record in place
and write the whole collection back.  Components as in
`postStudents`. -/
def putStudentById (pathId : String) (body : Body)
    (load : Option (List Student)) (saveOk : Bool) :
    Nat × Response × Option (List Student) :=
  match load with
  | none => (500, .error "Server cannot update student.", none)
  | some students =>
    match students.findIdx? (fun s => looseEq s.id (.str pathId)) with
    | none => (404, .error "Student not found.", none)
    | some idx =>
      let upd := applyUpdate body (students.getD idx defStudent)
      let students2 := students.set idx upd
      if saveOk then
        (200, .student upd, some students2)
      else
        (500, .error "Server cannot update student.", none)

/-! ### Helper lemmas about list scanning -/

/-- Lemma: `find?` returns the element at the first index satisfying the
predicate. -/
theorem find?_eq_of_first {α : Type} (p : α → Bool) (l : List α) :
    ∀ (i : Nat) (hi : i < l.length), p (l.get ⟨i, hi⟩) = true →
    (∀ j (hj : j < i), p (l.get ⟨j, Nat.lt_trans hj hi⟩) = false) →
    l.find? p = some (l.get ⟨i, hi⟩) := by
  induction l with
  | nil => intro i hi hp hb; simp at hi
  | cons a t ih =>
    intro i hi hp hb
    cases i with
    | zero =>
      simp only [List.get] at hp
      simp [List.find?, hp]
    | succ k =>
      have h0 : p a = false := hb 0 (Nat.succ_pos k)
      simp only [List.get] at hp
      have hk : k < t.length := Nat.lt_of_succ_lt_succ hi
      have := ih k hk hp (fun j hj => hb (j + 1) (Nat.succ_lt_succ hj))
      simp [List.find?, h0, this]

/-- Facts extracted from a successful `findIdx?`: the index is in
bounds, the element there satisfies the predicate, and no earlier
element does. -/
theorem findIdx?_some_facts {α : Type} (p : α → Bool) (d : α) :
    ∀ (l : List α) (i : Nat), l.findIdx? p = some i →
      i < l.length ∧ p (l.getD i d) = true ∧
        ∀ j, j < i → p (l.getD j d) = false := by
  intro l
  induction l with
  | nil => intro i h; simp [List.findIdx?] at h
  | cons a t ih =>
    intro i h
    rw [List.findIdx?_cons] at h
    by_cases hpa : p a = true
    · simp [hpa] at h
      subst h
      exact ⟨Nat.succ_pos _, by simpa [List.getD] using hpa, fun j hj => absurd hj (Nat.not_lt_zero j)⟩
    · simp [hpa] at h
      obtain ⟨k, hk, rfl⟩ := h
      obtain ⟨hlt, hp, hb⟩ := ih k hk
      refine ⟨Nat.succ_lt_succ hlt, by simpa [List.getD] using hp, ?_⟩
      intro j hj
      cases j with
      | zero => simpa [List.getD] using eq_false_of_ne_true hpa
      | succ m => simpa [List.getD] using hb m (Nat.lt_of_succ_lt_succ hj)

/-- Replacing an index by the value already stored there is the
identity. -/
theorem set_getD_self {α : Type} (d : α) :
    ∀ (l : List α) (i : Nat), i < l.length → l.set i (l.getD i d) = l := by
  intro l
  induction l with
  | nil => intro i h; simp at h
  | cons a t ih =>
    intro i h
    cases i with
    | zero => simp [List.getD]
    | succ k =>
      have := ih k (Nat.lt_of_succ_lt_succ h)
      simp only [List.getD, List.get?_eq_getElem?] at this ⊢
      simp [this]

/-- Lemma: `getD` commutes with `map`. -/
theorem getD_map {α β : Type} (f : α → β) (d : α) :
    ∀ (l : List α) (i : Nat), (l.map f).getD i (f d) = f (l.getD i d) := by
  intro l
  induction l with
  | nil => intro i; simp [List.getD]
  | cons a t ih =>
    intro i
    cases i with
    | zero => simp [List.getD]
    | succ k => simpa [List.getD] using ih k

/-- Lemma: `findIdx?` with a predicate reading only `id` is determined by the
list of ids. -/
theorem findIdx?_looseEq_congr (x : JSVal) (l₁ l₂ : List Student)
    (h : l₁.map Student.id = l₂.map Student.id) :
    l₁.findIdx? (fun s => looseEq s.id x)
      = l₂.findIdx? (fun s => looseEq s.id x) := by
  have e₁ : (l₁.map Student.id).findIdx? (fun v => looseEq v x)
      = l₁.findIdx? (fun s => looseEq s.id x) :=
    List.findIdx?_map Student.id l₁
  have e₂ : (l₂.map Student.id).findIdx? (fun v => looseEq v x)
      = l₂.findIdx? (fun s => looseEq s.id x) :=
    List.findIdx?_map Student.id l₂
  rw [← e₁, ← e₂, h]

/-! ### Claim theorems -/

/-- C2: for every get-by-id request with a successful load, the handler
returns 200 with the first record (in list order) whose `id` loosely
matches the path identifier, and 404 with an error body when no record
matches loosely. -/
theorem c2_get_by_id_first_loose_match (students : List Student)
    (pathId : String) :
    (∀ (i : Nat) (hi : i < students.length),
        looseEq (students.get ⟨i, hi⟩).id (.str pathId) = true →
        (∀ j (hj : j < i),
          looseEq (students.get ⟨j, Nat.lt_trans hj hi⟩).id (.str pathId) = false) →
        getStudentById pathId (some students)
          = (200, .student (students.get ⟨i, hi⟩))) ∧
    ((∀ s ∈ students, looseEq s.id (.str pathId) = false) →
        getStudentById pathId (some students)
          = (404, .error "Student not found")) := by
  constructor
  · intro i hi hp hb
    have := find?_eq_of_first (fun s => looseEq s.id (.str pathId)) students i hi hp hb
    simp [getStudentById, this]
  · intro h
    have : students.find? (fun s => looseEq s.id (.str pathId)) = none :=
      List.find?_eq_none.mpr (fun s hs => by simp [h s hs])
    simp [getStudentById, this]

/-- C2 witness: a stored numeric id `7` is found by the string path
identifier `"7"`, a stored numeric id `1000` is found by the exponent
path identifier `"1e3"` (ToNumber coercion), and a non-matching path
yields 404. -/
theorem c2_witness :
    getStudentById "7" (some [⟨.num 7, .str "Ada", .str "L", .num 1⟩])
      = (200, .student ⟨.num 7, .str "Ada", .str "L", .num 1⟩) ∧
    getStudentById "1e3" (some [⟨.num 1000, .str "Ada", .str "L", .num 1⟩])
      = (200, .student ⟨.num 1000, .str "Ada", .str "L", .num 1⟩) ∧
    getStudentById "8" (some [⟨.num 7, .str "Ada", .str "L", .num 1⟩])
      = (404, .error "Student not found") := by
  refine ⟨?_, ?_, ?_⟩
  · exact (c2_get_by_id_first_loose_match
        [⟨.num 7, .str "Ada", .str "L", .num 1⟩] "7").1 0 (by decide)
      (by decide) (fun j hj => absurd hj (Nat.not_lt_zero j))
  · exact (c2_get_by_id_first_loose_match
        [⟨.num 1000, .str "Ada", .str "L", .num 1⟩] "1e3").1 0 (by decide)
      (by decide) (fun j hj => absurd hj (Nat.not_lt_zero j))
  · exact (c2_get_by_id_first_loose_match
        [⟨.num 7, .str "Ada", .str "L", .num 1⟩] "8").2 (by decide)

/-- C3: a create request that passes body validation but whose `id` is
strictly (`===`) equal to some stored record's `id` is answered 409,
whatever the other fields are, and nothing is written to the store. -/
theorem c3_create_conflict (body : Body) (students : List Student)
    (saveOk : Bool)
    (h1 : truthy (getField body "id") = true)
    (h2 : truthy (getField body "firstName") = true)
    (h3 : truthy (getField body "lastName") = true)
    (h4 : isNumberType (getField body "year") = true)
    (hdup : ∃ s ∈ students, strictEq s.id (getField body "id") = true) :
    postStudents body (some students) saveOk
      = (409, .error "ID already exists.", none) := by
  have hany : students.any (fun s => strictEq s.id (getField body "id")) = true := by
    obtain ⟨s, hs, hst⟩ := hdup
    exact List.any_eq_true.mpr ⟨s, hs, hst⟩
  simp [postStudents, h1, h2, h3, h4, hany]

/-- C3 witness: creating id `7` when a record with numeric id `7` (and
different other fields) exists yields 409 with no write. -/
theorem c3_witness :
    postStudents
        [("id", .num 7), ("firstName", .str "X"), ("lastName", .str "Y"),
          ("year", .num 2)]
        (some [⟨.num 7, .str "Ada", .str "L", .num 1⟩]) true
      = (409, .error "ID already exists.", none) :=
  c3_create_conflict _ _ _ (by decide) (by decide) (by decide) (by decide)
    ⟨⟨.num 7, .str "Ada", .str "L", .num 1⟩, by decide, by decide⟩

/-- C4: a create request is answered 400 exactly when `id`,
`firstName` or `lastName` is falsy or `year` is not of number type —
whatever the state of the store (the check runs before any store
access), and in particular a numeric string for `year` is rejected. -/
theorem c4_create_validation (body : Body) (load : Option (List Student))
    (saveOk : Bool) :
    (postStudents body load saveOk).1 = 400 ↔
      (truthy (getField body "id") = false
        ∨ truthy (getField body "firstName") = false
        ∨ truthy (getField body "lastName") = false
        ∨ isNumberType (getField body "year") = false) := by
  by_cases h1 : truthy (getField body "id") = true <;>
  by_cases h2 : truthy (getField body "firstName") = true <;>
  by_cases h3 : truthy (getField body "lastName") = true <;>
  by_cases h4 : isNumberType (getField body "year") = true <;>
  simp_all [postStudents] <;>
  cases load <;>
  simp_all <;>
  split <;> simp_all <;> split <;> simp_all

/-- C4 witness: `year` given as the numeric string `"3"` is rejected
with 400 even though the store could not even be read. -/
theorem c4_witness :
    (postStudents
        [("id", .num 1), ("firstName", .str "A"), ("lastName", .str "B"),
          ("year", .str "3")]
        none true).1 = 400 :=
  (c4_create_validation _ none true).mpr (Or.inr (Or.inr (Or.inr (by decide))))

/-- C8: an update request whose path identifier loosely matches no
stored record's id is answered 404 with an error body, and nothing is
written to the store. -/
theorem c8_update_not_found (pathId : String) (body : Body)
    (students : List Student) (saveOk : Bool)
    (h : ∀ s ∈ students, looseEq s.id (.str pathId) = false) :
    putStudentById pathId body (some students) saveOk
      = (404, .error "Student not found.", none) := by
  have : students.findIdx? (fun s => looseEq s.id (.str pathId)) = none :=
    List.findIdx?_eq_none_iff.mpr h
  simp [putStudentById, this]

/-- C8 witness: updating id `"9"` against a store holding only id `7`
returns 404 and performs no write. -/
theorem c8_witness :
    putStudentById "9" [("year", .num 4)]
        (some [⟨.num 7, .str "Ada", .str "L", .num 1⟩]) true
      = (404, .error "Student not found.", none) :=
  c8_update_not_found "9" _ _ true (by decide)

/-! ### More helper lemmas -/

/-- Lemma: `getD` after `set` at the written index. -/
theorem getD_set_self {α : Type} (l : List α) (i : Nat) (a d : α)
    (h : i < l.length) : (l.set i a).getD i d = a := by
  simp [List.getD_eq_getElem?_getD, List.getElem?_set_self h]

/-- Lemma: `getD` after `set` at a different index. -/
theorem getD_set_ne {α : Type} (l : List α) (i j : Nat) (a d : α)
    (h : i ≠ j) : (l.set i a).getD j d = l.getD j d := by
  simp [List.getD_eq_getElem?_getD, List.getElem?_set_ne h]

/-- The update written by the PUT handler never touches `id`. -/
theorem applyUpdate_id (body : Body) (s : Student) :
    (applyUpdate body s).id = s.id := rfl

/-- Applying the same PUT body twice is the same as applying it once. -/
theorem applyUpdate_idem (body : Body) (s : Student) :
    applyUpdate body (applyUpdate body s) = applyUpdate body s := by
  simp only [applyUpdate]
  by_cases h1 : (getField body "firstName" == JSVal.undefined) = true <;>
  by_cases h2 : (getField body "lastName" == JSVal.undefined) = true <;>
  by_cases h3 : (getField body "year" == JSVal.undefined) = true <;>
  simp [h1, h2, h3]

/-- A PUT-style in-place update leaves the list of ids unchanged. -/
theorem ids_set_applyUpdate (body : Body) (db : List Student) (idx : Nat)
    (h : idx < db.length) :
    (db.set idx (applyUpdate body (db.getD idx defStudent))).map Student.id
      = db.map Student.id := by
  rw [List.map_set, applyUpdate_id]
  have : (db.getD idx defStudent).id
      = (db.map Student.id).getD idx defStudent.id := (getD_map Student.id defStudent db idx).symm
  rw [this]
  exact set_getD_self defStudent.id (db.map Student.id) idx (by simpa using h)

/-- Shared description of a PUT that locates a record: status 200, only
the body-present fields of the located record are rewritten, everything
else is framed. -/
theorem putStudentById_found_spec (db : List Student) (pathId : String)
    (body : Body) (idx st : Nat) (resp : Response) (db2 : List Student)
    (hfind : db.findIdx? (fun s => looseEq s.id (.str pathId)) = some idx)
    (hrun : putStudentById pathId body (some db) true = (st, resp, some db2)) :
    st = 200 ∧ db2.length = db.length ∧
    (∀ j, j ≠ idx → db2.getD j defStudent = db.getD j defStudent) ∧
    (db2.getD idx defStudent).id = (db.getD idx defStudent).id ∧
    (getField body "firstName" = .undefined →
      (db2.getD idx defStudent).firstName = (db.getD idx defStudent).firstName) ∧
    (getField body "firstName" ≠ .undefined →
      (db2.getD idx defStudent).firstName = getField body "firstName") ∧
    (getField body "lastName" = .undefined →
      (db2.getD idx defStudent).lastName = (db.getD idx defStudent).lastName) ∧
    (getField body "lastName" ≠ .undefined →
      (db2.getD idx defStudent).lastName = getField body "lastName") ∧
    (getField body "year" = .undefined →
      (db2.getD idx defStudent).year = (db.getD idx defStudent).year) ∧
    (getField body "year" ≠ .undefined →
      (db2.getD idx defStudent).year = getField body "year") ∧
    resp = .student (db2.getD idx defStudent) := by
  have hidx : idx < db.length :=
    (findIdx?_some_facts (fun s => looseEq s.id (.str pathId)) defStudent db idx hfind).1
  have hrun2 : putStudentById pathId body (some db) true
      = (200, .student (applyUpdate body (db.getD idx defStudent)),
          some (db.set idx (applyUpdate body (db.getD idx defStudent)))) := by
    simp [putStudentById, hfind]
  rw [hrun2] at hrun
  simp only [Prod.mk.injEq, Option.some.injEq] at hrun
  obtain ⟨hst, hresp, hdb2⟩ := hrun
  subst hst
  subst hresp
  subst hdb2
  have hset : (db.set idx (applyUpdate body (db.getD idx defStudent))).getD idx defStudent
      = applyUpdate body (db.getD idx defStudent) :=
    getD_set_self db idx _ defStudent hidx
  refine ⟨rfl, List.length_set .., fun j hj => getD_set_ne db idx j _ defStudent (fun h => hj h.symm),
    ?_, ?_, ?_, ?_, ?_, ?_, ?_, ?_⟩
  · rw [hset]; rfl
  · rw [hset]; intro h; simp [applyUpdate, h]
  · rw [hset]; intro h; simp [applyUpdate, h]
  · rw [hset]; intro h; simp [applyUpdate, h]
  · rw [hset]; intro h; simp [applyUpdate, h]
  · rw [hset]; intro h; simp [applyUpdate, h]
  · rw [hset]; intro h; simp [applyUpdate, h]
  · rw [hset]

/-- C5: a PUT request that locates a record (first loose `id` match at
index `idx`) rewrites exactly the body-present fields of that record:
absent fields, the record's `id`, and every other record of the
collection are unchanged, and the updated record is returned with
status 200. -/
theorem c5_update_only_present_fields (db : List Student) (pathId : String)
    (body : Body) (idx st : Nat) (resp : Response) (db2 : List Student)
    (hfind : db.findIdx? (fun s => looseEq s.id (.str pathId)) = some idx)
    (hrun : putStudentById pathId body (some db) true = (st, resp, some db2)) :
    st = 200 ∧ db2.length = db.length ∧
    (∀ j, j ≠ idx → db2.getD j defStudent = db.getD j defStudent) ∧
    (db2.getD idx defStudent).id = (db.getD idx defStudent).id ∧
    (getField body "firstName" = .undefined →
      (db2.getD idx defStudent).firstName = (db.getD idx defStudent).firstName) ∧
    (getField body "firstName" ≠ .undefined →
      (db2.getD idx defStudent).firstName = getField body "firstName") ∧
    (getField body "lastName" = .undefined →
      (db2.getD idx defStudent).lastName = (db.getD idx defStudent).lastName) ∧
    (getField body "lastName" ≠ .undefined →
      (db2.getD idx defStudent).lastName = getField body "lastName") ∧
    (getField body "year" = .undefined →
      (db2.getD idx defStudent).year = (db.getD idx defStudent).year) ∧
    (getField body "year" ≠ .undefined →
      (db2.getD idx defStudent).year = getField body "year") ∧
    resp = .student (db2.getD idx defStudent) :=
  putStudentById_found_spec db pathId body idx st resp db2 hfind hrun

/-- C5 witness: with the body `{year: 4}` on a store holding the single
record with id `7`, the PUT at path `"7"` changes `year` to `4`, leaves
`firstName`, `lastName` and `id` unchanged, and answers 200 with the
updated record. -/
theorem c5_witness :
    ([⟨.num 7, .str "Ada", .str "L", .num 1⟩] : List Student).findIdx?
        (fun s => looseEq s.id (.str "7")) = some 0 ∧
    putStudentById "7" [("year", .num 4)]
        (some [⟨.num 7, .str "Ada", .str "L", .num 1⟩]) true
      = (200, .student ⟨.num 7, .str "Ada", .str "L", .num 4⟩,
          some [⟨.num 7, .str "Ada", .str "L", .num 4⟩]) ∧
    (([⟨.num 7, .str "Ada", .str "L", .num 4⟩] : List Student).getD 0 defStudent).firstName
      = (([⟨.num 7, .str "Ada", .str "L", .num 1⟩] : List Student).getD 0 defStudent).firstName ∧
    (([⟨.num 7, .str "Ada", .str "L", .num 4⟩] : List Student).getD 0 defStudent).year
      = getField [("year", .num 4)] "year" := by
  refine ⟨by decide, by decide, ?_, ?_⟩
  · exact (c5_update_only_present_fields [⟨.num 7, .str "Ada", .str "L", .num 1⟩] "7"
      [("year", .num 4)] 0 200 (.student ⟨.num 7, .str "Ada", .str "L", .num 4⟩)
      [⟨.num 7, .str "Ada", .str "L", .num 4⟩] (by decide) (by decide)).2.2.2.2.1 (by decide)
  · exact (c5_update_only_present_fields [⟨.num 7, .str "Ada", .str "L", .num 1⟩] "7"
      [("year", .num 4)] 0 200 (.student ⟨.num 7, .str "Ada", .str "L", .num 4⟩)
      [⟨.num 7, .str "Ada", .str "L", .num 4⟩] (by decide) (by decide)).2.2.2.2.2.2.2.2.2.1 (by decide)

/-- C10: in the PUT handler the absence sentinel for the three
updatable fields is exactly `undefined`: any other value — `null`
included — counts as present and is written verbatim, with no type
validation (the handler can never answer 400). -/
theorem c10_update_absent_sentinel (db : List Student) (pathId : String)
    (body : Body) (idx st : Nat) (resp : Response) (db2 : List Student)
    (hfind : db.findIdx? (fun s => looseEq s.id (.str pathId)) = some idx)
    (hrun : putStudentById pathId body (some db) true = (st, resp, some db2)) :
    st = 200 ∧
    (getField body "year" ≠ .undefined →
      (db2.getD idx defStudent).year = getField body "year") ∧
    (getField body "year" = .undefined →
      (db2.getD idx defStudent).year = (db.getD idx defStudent).year) := by
  obtain ⟨hst, _, _, _, _, _, _, _, hya, hyp, _⟩ :=
    putStudentById_found_spec db pathId body idx st resp db2 hfind hrun
  exact ⟨hst, hyp, hya⟩

/-- C10 witness: a body `{year: null}` counts as present and overwrites
`year` with `null` on the located record. -/
theorem c10_witness :
    ((JSVal.null : JSVal) ≠ .undefined) ∧
    (([⟨.num 7, .str "Ada", .str "L", .null⟩] : List Student).getD 0 defStudent).year
      = getField [("year", .null)] "year" := by
  refine ⟨by decide, ?_⟩
  exact (c10_update_absent_sentinel [⟨.num 7, .str "Ada", .str "L", .num 1⟩] "7"
    [("year", .null)] 0 200 (.student ⟨.num 7, .str "Ada", .str "L", .null⟩)
    [⟨.num 7, .str "Ada", .str "L", .null⟩] (by decide) (by decide)).2.1 (by decide)

/-- All ids of the collection are pairwise distinct under the strict
(`===`) matching that the create-time duplicate check uses. -/
def distinctIds (l : List Student) : Prop :=
  l.Pairwise (fun a b => strictEq a.id b.id = false)

instance (l : List Student) : Decidable (distinctIds l) :=
  inferInstanceAs (Decidable (l.Pairwise _))

/-- C6: strict-id uniqueness is an invariant: from a collection whose
ids are pairwise strictly distinct, any successful create (which
rejects strict duplicates before appending) and any successful update
(which never changes an id) produce a collection whose ids are again
pairwise strictly distinct. -/
theorem c6_unique_ids_invariant (db : List Student) (hdb : distinctIds db) :
    (∀ body st resp db2,
      postStudents body (some db) true = (st, resp, some db2) → distinctIds db2) ∧
    (∀ pathId body st resp db2,
      putStudentById pathId body (some db) true = (st, resp, some db2) →
        distinctIds db2) := by
  constructor
  · intro body st resp db2 h
    simp only [postStudents] at h
    split at h
    · simp at h
    · split at h
      · simp at h
      · rename_i hany
        simp only [if_true, Prod.mk.injEq, Option.some.injEq] at h
        obtain ⟨-, -, hdb2⟩ := h
        subst hdb2
        refine List.pairwise_append.mpr ⟨hdb, by simp, ?_⟩
        intro a ha b hb
        simp only [List.mem_singleton] at hb
        subst hb
        have hall : ∀ s ∈ db, ¬ strictEq s.id (getField body "id") = true := by
          intro s hs hps
          exact hany (List.any_eq_true.mpr ⟨s, hs, hps⟩)
        simpa using hall a ha
  · intro pathId body st resp db2 h
    cases hfind : db.findIdx? (fun s => looseEq s.id (.str pathId)) with
    | none => simp [putStudentById, hfind] at h
    | some idx =>
      have hidx : idx < db.length :=
        (findIdx?_some_facts (fun s => looseEq s.id (.str pathId)) defStudent db idx hfind).1
      have hdb2 : db2 = db.set idx (applyUpdate body (db.getD idx defStudent)) := by
        simp only [putStudentById, hfind, if_true, Prod.mk.injEq, Option.some.injEq] at h
        exact h.2.2.symm
      subst hdb2
      have hmap := ids_set_applyUpdate body db idx hidx
      have hpw : ((db.set idx (applyUpdate body (db.getD idx defStudent))).map
          Student.id).Pairwise (fun a b => strictEq a b = false) := by
        rw [hmap]
        exact List.pairwise_map.mpr hdb
      exact List.pairwise_map.mp hpw

/-- C6 witness: from a distinct-id store, a concrete successful create
and a concrete successful update both yield distinct-id stores. -/
theorem c6_witness :
    distinctIds [⟨.num 7, .str "Ada", .str "L", .num 1⟩,
                 ⟨.num 8, .str "X", .str "Y", .num 2⟩] ∧
    distinctIds [⟨.num 7, .str "Ada", .str "L", .num 4⟩] := by
  constructor
  · exact (c6_unique_ids_invariant [⟨.num 7, .str "Ada", .str "L", .num 1⟩]
      (by decide)).1
      [("id", .num 8), ("firstName", .str "X"), ("lastName", .str "Y"), ("year", .num 2)]
      201 (.student ⟨.num 8, .str "X", .str "Y", .num 2⟩) _ (by decide)
  · exact (c6_unique_ids_invariant [⟨.num 7, .str "Ada", .str "L", .num 1⟩]
      (by decide)).2 "7" [("year", .num 4)]
      200 (.student ⟨.num 7, .str "Ada", .str "L", .num 4⟩) _ (by decide)

/-- C7: PUT is idempotent — running the identical update request a
second time, on the state persisted by the first run, returns the same
response and leaves the persisted collection exactly as after the first
run (the state after two runs equals the state after one). -/
theorem c7_put_idempotent (pathId : String) (body : Body) (db : List Student) :
    putStudentById pathId body
        (some ((putStudentById pathId body (some db) true).2.2.getD db)) true
      = putStudentById pathId body (some db) true ∧
    (putStudentById pathId body
        (some ((putStudentById pathId body (some db) true).2.2.getD db)) true).2.2.getD
        ((putStudentById pathId body (some db) true).2.2.getD db)
      = (putStudentById pathId body (some db) true).2.2.getD db := by
  cases hfind : db.findIdx? (fun s => looseEq s.id (.str pathId)) with
  | none =>
    have hput : putStudentById pathId body (some db) true
        = (404, .error "Student not found.", none) := by
      simp [putStudentById, hfind]
    rw [hput]
    simp only [Option.getD_none]
    exact ⟨hput, by rw [hput]; rfl⟩
  | some idx =>
    have hidx : idx < db.length :=
      (findIdx?_some_facts (fun s => looseEq s.id (.str pathId)) defStudent db idx hfind).1
    have hput1 : putStudentById pathId body (some db) true
        = (200, .student (applyUpdate body (db.getD idx defStudent)),
            some (db.set idx (applyUpdate body (db.getD idx defStudent)))) := by
      simp [putStudentById, hfind]
    have hids := ids_set_applyUpdate body db idx hidx
    have hfind2 : (db.set idx (applyUpdate body (db.getD idx defStudent))).findIdx?
        (fun s => looseEq s.id (.str pathId)) = some idx := by
      rw [findIdx?_looseEq_congr (.str pathId) _ db hids]
      exact hfind
    have hget2 : (db.set idx (applyUpdate body (db.getD idx defStudent))).getD idx defStudent
        = applyUpdate body (db.getD idx defStudent) :=
      getD_set_self db idx _ defStudent hidx
    have hput2 : putStudentById pathId body
        (some (db.set idx (applyUpdate body (db.getD idx defStudent)))) true
        = (200, .student (applyUpdate body (db.getD idx defStudent)),
            some (db.set idx (applyUpdate body (db.getD idx defStudent)))) := by
      simp only [putStudentById, hfind2, hget2, applyUpdate_idem, List.set_set, if_true]
    rw [hput1]
    refine ⟨hput2, ?_⟩
    have : (putStudentById pathId body
        (some (db.set idx (applyUpdate body (db.getD idx defStudent)))) true).2.2.getD
        (db.set idx (applyUpdate body (db.getD idx defStudent)))
        = db.set idx (applyUpdate body (db.getD idx defStudent)) := by
      rw [hput2]; rfl
    exact this

/-- C1 counterexample: the claim fails as stated.  The store holds a
record with numeric id `7`; a create request with the string id `"7"`
passes validation (truthy fields, numeric year), is not a strict
duplicate (`7 === "7"` is false), and succeeds with 201, the exact
four-field body, and an append — yet a subsequent get-by-id for that id
(path `"7"`) returns the pre-existing numeric-id record, which shadows
the new one under loose matching, not the created object. -/
theorem c1_counterexample :
    postStudents
        [("id", .str "7"), ("firstName", .str "X"), ("lastName", .str "Y"),
          ("year", .num 2)]
        (some [⟨.num 7, .str "Ada", .str "L", .num 1⟩]) true
      = (201, .student ⟨.str "7", .str "X", .str "Y", .num 2⟩,
          some [⟨.num 7, .str "Ada", .str "L", .num 1⟩,
                ⟨.str "7", .str "X", .str "Y", .num 2⟩]) ∧
    strictEq (.num 7) (.str "7") = false ∧
    getStudentById "7"
        (some [⟨.num 7, .str "Ada", .str "L", .num 1⟩,
               ⟨.str "7", .str "X", .str "Y", .num 2⟩])
      = (200, .student ⟨.num 7, .str "Ada", .str "L", .num 1⟩) ∧
    Response.student ⟨.num 7, .str "Ada", .str "L", .num 1⟩
      ≠ .student ⟨.str "7", .str "X", .str "Y", .num 2⟩ := by
  decide

/-- C1 (amended): for every create request passing validation with no
strict-duplicate id, under successful load and save the response is 201
with exactly the four submitted fields (extra body fields dropped) and
the record is appended at the end; a subsequent get-by-id whose path
identifier loosely matches the submitted id returns that same object
PROVIDED no pre-existing record's id also loosely matches the path
identifier (otherwise the earlier record shadows the new one). -/
theorem c1_create_then_get_amended (body : Body) (db : List Student)
    (h1 : truthy (getField body "id") = true)
    (h2 : truthy (getField body "firstName") = true)
    (h3 : truthy (getField body "lastName") = true)
    (h4 : isNumberType (getField body "year") = true)
    (hnodup : ∀ s ∈ db, strictEq s.id (getField body "id") = false) :
    postStudents body (some db) true
      = (201, .student ⟨getField body "id", getField body "firstName",
            getField body "lastName", getField body "year"⟩,
          some (db ++ [⟨getField body "id", getField body "firstName",
            getField body "lastName", getField body "year"⟩])) ∧
    (∀ p : String, looseEq (getField body "id") (.str p) = true →
      (∀ s ∈ db, looseEq s.id (.str p) = false) →
      getStudentById p
          (some (db ++ [⟨getField body "id", getField body "firstName",
            getField body "lastName", getField body "year"⟩]))
        = (200, .student ⟨getField body "id", getField body "firstName",
            getField body "lastName", getField body "year"⟩)) := by
  have hany : db.any (fun s => strictEq s.id (getField body "id")) = false := by
    refine Bool.eq_false_iff.mpr (fun hA => ?_)
    obtain ⟨s, hs, hps⟩ := List.any_eq_true.mp hA
    rw [hnodup s hs] at hps
    exact Bool.false_ne_true hps
  constructor
  · simp [postStudents, h1, h2, h3, h4, hany]
  · intro p hp hnone
    have hfind1 : db.find? (fun s => looseEq s.id (.str p)) = none :=
      List.find?_eq_none.mpr (fun s hs => by simp [hnone s hs])
    have hfind : (db ++ [(⟨getField body "id", getField body "firstName",
        getField body "lastName", getField body "year"⟩ : Student)]).find?
        (fun s => looseEq s.id (.str p))
        = some ⟨getField body "id", getField body "firstName",
            getField body "lastName", getField body "year"⟩ := by
      rw [List.find?_append, hfind1]
      simp [List.find?, hp]
    simp [getStudentById, hfind]

/-- C1 witness for the amended claim: creating id `7` (body carrying an
extra field, which is dropped) against a store whose only id is `1`
succeeds with exactly the four fields appended, and getting path `"7"`
afterwards returns the created record. -/
theorem c1_witness :
    postStudents
        [("id", .num 7), ("firstName", .str "X"), ("lastName", .str "Y"),
          ("year", .num 2), ("extra", .str "dropped")]
        (some [⟨.num 1, .str "A", .str "B", .num 1⟩]) true
      = (201, .student ⟨.num 7, .str "X", .str "Y", .num 2⟩,
          some [⟨.num 1, .str "A", .str "B", .num 1⟩,
                ⟨.num 7, .str "X", .str "Y", .num 2⟩]) ∧
    getStudentById "7"
        (some [⟨.num 1, .str "A", .str "B", .num 1⟩,
               ⟨.num 7, .str "X", .str "Y", .num 2⟩])
      = (200, .student ⟨.num 7, .str "X", .str "Y", .num 2⟩) := by
  have h := c1_create_then_get_amended
    [("id", .num 7), ("firstName", .str "X"), ("lastName", .str "Y"),
      ("year", .num 2), ("extra", .str "dropped")]
    [⟨.num 1, .str "A", .str "B", .num 1⟩]
    (by decide) (by decide) (by decide) (by decide) (by decide)
  exact ⟨h.1, h.2 "7" (by decide) (by decide)⟩

/-! ### The persistence codec

`writeDB` models `JSON.stringify(data, null, 2)` (src/app.js line 67) on
the documents this application persists: a top-level array of flat
student objects whose field values are the modelled primitives (numbers
are integers; a field holding `undefined` is dropped by `stringify`, as
in JavaScript).  `readDB` models `JSON.parse` (src/app.js line 63) on
the same document class: whitespace-insensitive, full string-escape
handling, integer numerals, rejecting trailing garbage. -/

/-- Drop leading JSON whitespace, as `JSON.parse` does between
tokens. -/
def skipWs : List Char → List Char
  | [] => []
  | c :: cs => if isWsChar c then skipWs cs else c :: cs

/-- Lowercase hexadecimal digit character, as used by `JSON.stringify`
in `\u00xx` escapes. -/
def hexDigitChar (n : Nat) : Char :=
  Char.ofNat (if n < 10 then 48 + n else 87 + min n 15)

/-- The `JSON.stringify` string escaping of one character: the two-character
escapes for quote, backslash and the named control characters, `\u00xx`
for the remaining control characters, and the character itself
otherwise. -/
def escapeChar (c : Char) : List Char :=
  if c = '"' then ['\\', '"']
  else if c = '\\' then ['\\', '\\']
  else if c = '\x08' then ['\\', 'b']
  else if c = '\x09' then ['\\', 't']
  else if c = '\x0a' then ['\\', 'n']
  else if c = '\x0c' then ['\\', 'f']
  else if c = '\x0d' then ['\\', 'r']
  else if c.toNat < 32 then
    '\\' :: 'u' :: '0' :: '0' ::
      [hexDigitChar (c.toNat / 16), hexDigitChar (c.toNat % 16)]
  else [c]

/-- Escape a whole string body. -/
def escapeList : List Char → List Char
  | [] => []
  | c :: cs => escapeChar c ++ escapeList cs

/-- The single-character escapes accepted by `JSON.parse` after a
backslash (`\u` is handled separately). -/
def simpleEsc : Char → Option Char
  | 'n' => some '\x0a'
  | 't' => some '\x09'
  | 'r' => some '\x0d'
  | 'b' => some '\x08'
  | 'f' => some '\x0c'
  | '/' => some '/'
  | '"' => some '"'
  | '\\' => some '\\'
  | _ => none

/-- Parse a JSON string body (after the opening quote) up to and
including the closing quote, handling escapes and rejecting raw control
characters, as `JSON.parse` does.  Returns the decoded characters and
the remaining input. -/
def parseStringBody : List Char → Option (List Char × List Char)
  | [] => none
  | c :: cs =>
    if c = '"' then some ([], cs)
    else if c = '\\' then
      match cs with
      | 'u' :: h1 :: h2 :: h3 :: h4 :: cs2 =>
        match hexVal h1, hexVal h2, hexVal h3, hexVal h4 with
        | some a, some b, some c2, some d =>
          match parseStringBody cs2 with
          | some (s, r) =>
            some (Char.ofNat (a * 4096 + b * 256 + c2 * 16 + d) :: s, r)
          | none => none
        | _, _, _, _ => none
      | e :: cs2 =>
        match simpleEsc e with
        | some ch =>
          match parseStringBody cs2 with
          | some (s, r) => some (ch :: s, r)
          | none => none
        | none => none
      | [] => none
    else if c.toNat < 32 then none
    else
      match parseStringBody cs with
      | some (s, r) => some (c :: s, r)
      | none => none

/-- Parse a run of decimal digits into a natural number, returning the
remaining input; fails on an empty run. -/
def parseNat (cs : List Char) : Option (Nat × List Char) :=
  match digitsToNat (cs.takeWhile Char.isDigit) with
  | none => none
  | some n => some (n, cs.dropWhile Char.isDigit)

/-- Parse one JSON value of the modelled class (null, booleans, integer
numerals, strings). -/
def parseVal (cs : List Char) : Option (JSVal × List Char) :=
  match cs with
  | '"' :: rest =>
    match parseStringBody rest with
    | some (s, r) => some (.str ⟨s⟩, r)
    | none => none
  | '-' :: rest =>
    match parseNat rest with
    | some (n, r) => some (.num (-(n : Int)), r)
    | none => none
  | 'f' :: 'a' :: 'l' :: 's' :: 'e' :: rest => some (.bool false, rest)
  | 't' :: 'r' :: 'u' :: 'e' :: rest => some (.bool true, rest)
  | 'n' :: 'u' :: 'l' :: 'l' :: rest => some (.null, rest)
  | _ =>
    match parseNat cs with
    | some (n, r) => some (.num (n : Int), r)
    | none => none

/-- Serialize one JSON value of the modelled class (`undefined` never
reaches this function: `stringify` drops such fields). -/
def encVal : JSVal → List Char
  | .undefined => []
  | .null => "null".data
  | .bool true => "true".data
  | .bool false => "false".data
  | .num n => if n < 0 then '-' :: encNat n.natAbs else encNat n.toNat
  | .str s => '"' :: (escapeList s.data ++ ['"'])

/-- The key/value pairs `JSON.stringify` emits for a student object, in
insertion order, skipping fields holding `undefined`. -/
def studentFields (s : Student) : List (String × JSVal) :=
  (if s.id == JSVal.undefined then [] else [("id", s.id)]) ++
  (if s.firstName == JSVal.undefined then [] else [("firstName", s.firstName)]) ++
  (if s.lastName == JSVal.undefined then [] else [("lastName", s.lastName)]) ++
  (if s.year == JSVal.undefined then [] else [("year", s.year)])

/-- Rebuild a student from parsed object members: each field reads its
key with JavaScript object semantics (absent key = `undefined`, last
duplicate wins), exactly as the handlers then access the record. -/
def studentOfFields (fs : List (String × JSVal)) : Student :=
  ⟨getField fs "id", getField fs "firstName", getField fs "lastName",
    getField fs "year"⟩

/-! #### Input-consumption lemmas (for termination of the two loops) -/

theorem skipWs_length_le : ∀ cs : List Char, (skipWs cs).length ≤ cs.length := by
  intro cs
  induction cs with
  | nil => simp [skipWs]
  | cons c t ih =>
    by_cases h : isWsChar c = true
    · simp [skipWs, h]
      omega
    · simp [skipWs, h]

theorem parseStringBody_length_lt :
    ∀ (cs s r : List Char), parseStringBody cs = some (s, r) → r.length < cs.length := by
  suffices H : ∀ (n : Nat) (cs : List Char), cs.length ≤ n →
      ∀ s r, parseStringBody cs = some (s, r) → r.length < cs.length by
    intro cs s r h
    exact H cs.length cs le_rfl s r h
  intro n
  induction n with
  | zero =>
    intro cs hlen s r h
    have hnil : cs = [] := List.length_eq_zero.mp (Nat.le_zero.mp hlen)
    subst hnil
    rw [parseStringBody.eq_def] at h
    simp at h
  | succ n ih =>
    intro cs hlen s r h
    rw [parseStringBody.eq_def] at h
    rcases cs with - | ⟨c, cs⟩
    · simp at h
    · by_cases hq : c = '"'
      · subst hq
        simp at h
        obtain ⟨h1, h2⟩ := h
        subst h2
        simp
      · by_cases hb : c = '\\'
        · subst hb
          rcases cs with - | ⟨e, cs2⟩
          · simp at h
          · by_cases he : e = 'u'
            · subst he
              rcases cs2 with - | ⟨x1, - | ⟨x2, - | ⟨x3, - | ⟨x4, t⟩⟩⟩⟩
              · simp [simpleEsc] at h
              · simp [simpleEsc] at h
              · simp [simpleEsc] at h
              · simp [simpleEsc] at h
              · cases hx1 : hexVal x1 with
                | none => simp [hx1] at h
                | some a =>
                  cases hx2 : hexVal x2 with
                  | none => simp [hx1, hx2] at h
                  | some b =>
                    cases hx3 : hexVal x3 with
                    | none => simp [hx1, hx2, hx3] at h
                    | some c2 =>
                      cases hx4 : hexVal x4 with
                      | none => simp [hx1, hx2, hx3, hx4] at h
                      | some d =>
                        cases hp : parseStringBody t with
                        | none => simp [hx1, hx2, hx3, hx4, hp] at h
                        | some pr =>
                          obtain ⟨s0, r0⟩ := pr
                          simp [hx1, hx2, hx3, hx4, hp] at h
                          obtain ⟨h1, h2⟩ := h
                          have hlt := ih t (by simp at hlen; omega) s0 r0 hp
                          subst h2
                          simp
                          omega
            · cases hesc : simpleEsc e with
              | none => simp [he, hesc] at h
              | some ch =>
                cases hp : parseStringBody cs2 with
                | none => simp [he, hesc, hp] at h
                | some pr =>
                  obtain ⟨s0, r0⟩ := pr
                  simp [he, hesc, hp] at h
                  obtain ⟨h1, h2⟩ := h
                  have hlt := ih cs2 (by simp at hlen; omega) s0 r0 hp
                  subst h2
                  simp
                  omega
        · by_cases h32 : c.toNat < 32
          · simp [hq, hb, h32] at h
          · cases hp : parseStringBody cs with
            | none => simp [hq, hb, h32, hp] at h
            | some pr =>
              obtain ⟨s0, r0⟩ := pr
              simp [hq, hb, h32, hp] at h
              obtain ⟨h1, h2⟩ := h
              have hlt := ih cs (by simp at hlen; omega) s0 r0 hp
              subst h2
              simp
              omega

theorem parseNat_length_lt (cs : List Char) (n : Nat) (r : List Char)
    (h : parseNat cs = some (n, r)) : r.length < cs.length := by
  unfold parseNat at h
  cases hd : digitsToNat (cs.takeWhile Char.isDigit) with
  | none => rw [hd] at h; simp at h
  | some m =>
    rw [hd] at h
    simp at h
    obtain ⟨h1, h2⟩ := h
    subst h2
    have hne : cs.takeWhile Char.isDigit ≠ [] := by
      intro hnil
      rw [hnil] at hd
      simp [digitsToNat] at hd
    have happ : cs.takeWhile Char.isDigit ++ cs.dropWhile Char.isDigit = cs :=
      List.takeWhile_append_dropWhile Char.isDigit cs
    have hlen := congrArg List.length happ
    rw [List.length_append] at hlen
    have hpos : 0 < (cs.takeWhile Char.isDigit).length := List.length_pos.mpr hne
    omega

theorem parseVal_length_lt (cs : List Char) (v : JSVal) (r : List Char)
    (h : parseVal cs = some (v, r)) : r.length < cs.length := by
  rw [parseVal.eq_def] at h
  split at h
  · rename_i rest
    split at h
    · rename_i s0 r0 heq
      simp at h
      obtain ⟨-, h2⟩ := h
      subst h2
      have := parseStringBody_length_lt rest s0 r0 heq
      simp
      omega
    · simp at h
  · rename_i rest
    split at h
    · rename_i n0 r0 heq
      simp at h
      obtain ⟨-, h2⟩ := h
      subst h2
      have := parseNat_length_lt rest n0 r0 heq
      simp
      omega
    · simp at h
  · simp at h; obtain ⟨-, h2⟩ := h; subst h2; simp; omega
  · simp at h; obtain ⟨-, h2⟩ := h; subst h2; simp; omega
  · simp at h; obtain ⟨-, h2⟩ := h; subst h2; simp; omega
  · split at h
    · rename_i n0 r0 heq
      simp at h
      obtain ⟨-, h2⟩ := h
      subst h2
      exact parseNat_length_lt cs n0 r0 heq
    · simp at h

/-- Parse one object member `"key": value` (leading whitespace
allowed). -/
def parseMember (cs : List Char) : Option ((String × JSVal) × List Char) :=
  match skipWs cs with
  | '"' :: r1 =>
    match parseStringBody r1 with
    | none => none
    | some (k, r2) =>
      match skipWs r2 with
      | ':' :: r3 =>
        match parseVal (skipWs r3) with
        | none => none
        | some (v, r4) => some ((⟨k⟩, v), r4)
      | _ => none
  | _ => none

theorem parseMember_length_lt (cs : List Char) (kv : String × JSVal)
    (r : List Char) (h : parseMember cs = some (kv, r)) :
    r.length < cs.length := by
  unfold parseMember at h
  split at h
  · rename_i r1 heq1
    split at h
    · simp at h
    · rename_i k r2 heq2
      split at h
      · rename_i r3 heq3
        split at h
        · simp at h
        · rename_i v r4 heq4
          simp at h
          obtain ⟨-, h2⟩ := h
          subst h2
          have l1 := parseVal_length_lt (skipWs r3) v r4 heq4
          have l2 := skipWs_length_le r3
          have l3 : (skipWs r2).length = r3.length + 1 := by rw [heq3]; simp
          have l4 := skipWs_length_le r2
          have l5 := parseStringBody_length_lt r1 k r2 heq2
          have l6 : (skipWs cs).length = r1.length + 1 := by rw [heq1]; simp
          have l7 := skipWs_length_le cs
          omega
      · simp at h
  · simp at h

/-- Loop parsing `member (, member)*` followed by the closing brace, as
`JSON.parse` consumes an object after its first member position. -/
def parseMembersLoop (cs : List Char) : Option (List (String × JSVal) × List Char) :=
  match h1 : parseMember cs with
  | none => none
  | some (kv, r1) =>
    match h2 : skipWs r1 with
    | ',' :: r2 =>
      match parseMembersLoop r2 with
      | some (kvs, r3) => some (kv :: kvs, r3)
      | none => none
    | '}' :: r2 => some ([kv], r2)
    | _ => none
termination_by cs.length
decreasing_by
  have ha := parseMember_length_lt cs kv r1 h1
  have hb := skipWs_length_le r1
  have hc : (skipWs r1).length = r2.length + 1 := by rw [h2]; simp
  omega

theorem parseMembersLoop_length_lt :
    ∀ (cs : List Char) (fs : List (String × JSVal)) (r : List Char),
      parseMembersLoop cs = some (fs, r) → r.length < cs.length := by
  suffices H : ∀ (n : Nat) (cs : List Char), cs.length ≤ n →
      ∀ fs r, parseMembersLoop cs = some (fs, r) → r.length < cs.length by
    intro cs fs r h
    exact H cs.length cs le_rfl fs r h
  intro n
  induction n with
  | zero =>
    intro cs hlen fs r h
    rw [parseMembersLoop.eq_def] at h
    split at h
    · simp at h
    · rename_i kv r1 heq1
      have := parseMember_length_lt cs kv r1 heq1
      omega
  | succ n ih =>
    intro cs hlen fs r h
    rw [parseMembersLoop.eq_def] at h
    split at h
    · simp at h
    · rename_i kv r1 heq1
      have l1 := parseMember_length_lt cs kv r1 heq1
      split at h
      · rename_i r2 heq2
        have l2 := skipWs_length_le r1
        have l3 : (skipWs r1).length = r2.length + 1 := by rw [heq2]; simp
        split at h
        · rename_i kvs r3 heq3
          simp at h
          obtain ⟨-, h2⟩ := h
          subst h2
          have l4 := ih r2 (by omega) kvs r3 heq3
          omega
        · simp at h
      · rename_i r2 heq2
        have l2 := skipWs_length_le r1
        have l3 : (skipWs r1).length = r2.length + 1 := by rw [heq2]; simp
        simp at h
        obtain ⟨-, h2⟩ := h
        subst h2
        omega
      · simp at h

/-- Parse a student object: `\x7b\x7d` or `\x7b member (, member)* \x7d`,
yielding the member list (leading whitespace allowed). -/
def parseObjFields (cs : List Char) : Option (List (String × JSVal) × List Char) :=
  match skipWs cs with
  | '{' :: r1 =>
    match skipWs r1 with
    | '}' :: r2 => some ([], r2)
    | _ => parseMembersLoop r1
  | _ => none

theorem parseObjFields_length_lt (cs : List Char)
    (fs : List (String × JSVal)) (r : List Char)
    (h : parseObjFields cs = some (fs, r)) : r.length < cs.length := by
  unfold parseObjFields at h
  split at h
  · rename_i r1 heq1
    have l1 : (skipWs cs).length = r1.length + 1 := by rw [heq1]; simp
    have l2 := skipWs_length_le cs
    split at h
    · rename_i r2 heq2
      have l3 := skipWs_length_le r1
      have l4 : (skipWs r1).length = r2.length + 1 := by rw [heq2]; simp
      simp at h
      obtain ⟨-, h2⟩ := h
      subst h2
      omega
    · have := parseMembersLoop_length_lt r1 fs r h
      omega
  · simp at h

/-- Parse one student object and rebuild the record from its members. -/
def parseStudent (cs : List Char) : Option (Student × List Char) :=
  match parseObjFields cs with
  | some (fs, r) => some (studentOfFields fs, r)
  | none => none

theorem parseStudent_length_lt (cs : List Char) (st : Student)
    (r : List Char) (h : parseStudent cs = some (st, r)) :
    r.length < cs.length := by
  unfold parseStudent at h
  split at h
  · rename_i fs r0 heq
    simp at h
    obtain ⟨-, h2⟩ := h
    subst h2
    exact parseObjFields_length_lt cs fs r0 heq
  · simp at h

/-- Loop parsing `student (, student)*` followed by the closing
bracket. -/
def parseElemsLoop (cs : List Char) : Option (List Student × List Char) :=
  match h1 : parseStudent cs with
  | none => none
  | some (st, r1) =>
    match h2 : skipWs r1 with
    | ',' :: r2 =>
      match parseElemsLoop r2 with
      | some (sts, r3) => some (st :: sts, r3)
      | none => none
    | ']' :: r2 => some ([st], r2)
    | _ => none
termination_by cs.length
decreasing_by
  have ha := parseStudent_length_lt cs st r1 h1
  have hb := skipWs_length_le r1
  have hc : (skipWs r1).length = r2.length + 1 := by rw [h2]; simp
  omega

/-- Model of `JSON.parse` on a top-level array of student objects: `[]` or
`[ student (, student)* ]`, with no trailing garbage beyond
whitespace. -/
def parseDB (cs : List Char) : Option (List Student) :=
  match skipWs cs with
  | '[' :: r1 =>
    match skipWs r1 with
    | ']' :: r2 => if skipWs r2 = [] then some [] else none
    | _ =>
      match parseElemsLoop r1 with
      | some (sts, r2) => if skipWs r2 = [] then some sts else none
      | none => none
  | _ => none

/-- Model of `readDB` (src/app.js lines 61-64): `JSON.parse` of the file text,
on the document class this application persists. -/
def readDB : List Char → Option (List Student) := parseDB

/-- Indentation at array-element depth for `JSON.stringify(_, null, 2)`. -/
def ind2 : List Char := [' ', ' ']

/-- Indentation at object-member depth for `JSON.stringify(_, null, 2)`. -/
def ind4 : List Char := [' ', ' ', ' ', ' ']

/-- One serialized object member, preceded by its newline and
indentation. -/
def memberChunk (kv : String × JSVal) : List Char :=
  '\n' :: (ind4 ++ ('"' :: (escapeList kv.1.data ++ ('"' :: ':' :: ' ' :: encVal kv.2))))

/-- Comma-separated serialized members. -/
def encMembers : List (String × JSVal) → List Char
  | [] => []
  | [kv] => memberChunk kv
  | kv :: rest => memberChunk kv ++ ',' :: encMembers rest

/-- One serialized student object, pretty-printed as
`JSON.stringify(_, null, 2)` prints it at array depth. -/
def encStudentObj (s : Student) : List Char :=
  match studentFields s with
  | [] => ['{', '}']
  | fs => '{' :: (encMembers fs ++ '\n' :: (ind2 ++ ['}']))

/-- One serialized array element, preceded by its newline and
indentation. -/
def elemChunk (s : Student) : List Char :=
  '\n' :: (ind2 ++ encStudentObj s)

/-- Comma-separated serialized elements. -/
def encElems : List Student → List Char
  | [] => []
  | [s] => elemChunk s
  | s :: rest => elemChunk s ++ ',' :: encElems rest

/-- The serialized collection. -/
def encDB : List Student → List Char
  | [] => ['[', ']']
  | l => '[' :: (encElems l ++ ['\n', ']'])

/-- Model of `writeDB` (src/app.js lines 66-69): `JSON.stringify(data, null, 2)`
of the collection. -/
def writeDB : List Student → List Char := encDB

/-! #### Printer/parser inversion: numerals -/

/-- Heads the list with a non-digit (or is empty): what follows a
serialized numeral in the document grammar. -/
def noLeadDigit : List Char → Prop
  | [] => True
  | c :: _ => Char.isDigit c = false

theorem digitToChar_isDigit : ∀ d, (digitToChar d).isDigit = true := by
  intro d
  have hball : ∀ m ≤ 9, (Char.ofNat (48 + m)).isDigit = true := by decide
  unfold digitToChar
  exact hball (min d 9) (Nat.min_le_right d 9)

theorem digitVal_digitToChar : ∀ d < 10, digitValC (digitToChar d) = d := by
  decide

theorem natDigitsFuel_lt10 : ∀ fuel n d, d ∈ natDigitsFuel fuel n → d < 10 := by
  intro fuel
  induction fuel with
  | zero => intro n d h; simp [natDigitsFuel] at h
  | succ f ih =>
    intro n d h
    by_cases h0 : n = 0
    · simp [natDigitsFuel, h0] at h
    · simp only [natDigitsFuel, if_neg h0, List.mem_cons] at h
      rcases h with h | h
      · subst h
        exact Nat.mod_lt n (by omega)
      · exact ih (n / 10) d h

theorem valOfDigits_natDigitsFuel :
    ∀ fuel n, n ≤ fuel → valOfDigitsLSB (natDigitsFuel fuel n) = n := by
  intro fuel
  induction fuel with
  | zero =>
    intro n h
    have h0 : n = 0 := Nat.le_zero.mp h
    subst h0
    simp [natDigitsFuel, valOfDigitsLSB]
  | succ f ih =>
    intro n h
    by_cases h0 : n = 0
    · subst h0; simp [natDigitsFuel, valOfDigitsLSB]
    · simp only [natDigitsFuel, if_neg h0, valOfDigitsLSB]
      have hd : n / 10 < n := Nat.div_lt_self (Nat.pos_of_ne_zero h0) (by omega)
      rw [ih (n / 10) (by omega)]
      omega

theorem natDigitsFuel_ne_nil (fuel n : Nat) (h0 : n ≠ 0) (hf : n ≤ fuel) :
    natDigitsFuel fuel n ≠ [] := by
  cases fuel with
  | zero => omega
  | succ f => simp [natDigitsFuel, h0]

theorem encNat_all_digits (n : Nat) : ∀ c ∈ encNat n, Char.isDigit c = true := by
  intro c hc
  unfold encNat at hc
  by_cases h0 : n = 0
  · simp [h0] at hc
    subst hc
    decide
  · simp only [if_neg h0, List.mem_reverse, List.mem_map] at hc
    obtain ⟨d, -, hd⟩ := hc
    subst hd
    exact digitToChar_isDigit d

theorem digitsToNat_encNat (n : Nat) : digitsToNat (encNat n) = some n := by
  by_cases h0 : n = 0
  · subst h0; decide
  · have hne : encNat n ≠ [] := by
      unfold encNat
      simp only [if_neg h0]
      simp [natDigits]
      exact natDigitsFuel_ne_nil n n h0 le_rfl
    unfold digitsToNat
    rw [if_pos ⟨hne, List.all_eq_true.mpr (encNat_all_digits n)⟩]
    unfold encNat
    simp only [if_neg h0]
    rw [List.map_reverse, List.reverse_reverse]
    have hmap : ((natDigits n).map digitToChar).map digitValC = natDigits n := by
      rw [List.map_map]
      have : ∀ d ∈ natDigits n, (digitValC ∘ digitToChar) d = id d := by
        intro d hd
        simp only [Function.comp_apply, id_eq]
        exact digitVal_digitToChar d (natDigitsFuel_lt10 n n d hd)
      rw [List.map_congr_left this, List.map_id]
    rw [hmap]
    rw [show valOfDigitsLSB (natDigits n) = n from
      valOfDigits_natDigitsFuel n n le_rfl]

theorem spanDigits_append (l rest : List Char)
    (hl : ∀ c ∈ l, Char.isDigit c = true) (hr : noLeadDigit rest) :
    (l ++ rest).takeWhile Char.isDigit = l ∧
    (l ++ rest).dropWhile Char.isDigit = rest := by
  induction l with
  | nil =>
    simp only [List.nil_append]
    cases rest with
    | nil => simp
    | cons c t =>
      have : Char.isDigit c = false := hr
      simp [List.takeWhile, List.dropWhile, this]
  | cons c t ih =>
    have hc : Char.isDigit c = true := hl c (List.mem_cons_self c t)
    have iht := ih (fun x hx => hl x (List.mem_cons_of_mem c hx))
    simp [List.takeWhile, List.dropWhile, hc, iht.1, iht.2]

theorem parseNat_encNat (n : Nat) (rest : List Char) (hrest : noLeadDigit rest) :
    parseNat (encNat n ++ rest) = some (n, rest) := by
  unfold parseNat
  have hspan := spanDigits_append (encNat n) rest (encNat_all_digits n) hrest
  rw [hspan.1, hspan.2, digitsToNat_encNat]

/-! #### Printer/parser inversion: strings -/

theorem hexVal_hexDigitChar : ∀ k < 16, hexVal (hexDigitChar k) = some k := by
  decide

theorem parseStringBody_escapeList :
    ∀ (s rest : List Char),
      parseStringBody (escapeList s ++ '"' :: rest) = some (s, rest) := by
  intro s
  induction s with
  | nil =>
    intro rest
    rw [show escapeList [] = [] from rfl, List.nil_append, parseStringBody.eq_def]
    simp
  | cons c t ih =>
    intro rest
    rw [show escapeList (c :: t) = escapeChar c ++ escapeList t from rfl,
      List.append_assoc]
    by_cases hq : c = '"'
    · subst hq
      rw [show escapeChar '"' = ['\\', '"'] from by decide]
      rw [show (['\\', '"'] : List Char) ++ (escapeList t ++ '"' :: rest)
        = '\\' :: '"' :: (escapeList t ++ '"' :: rest) from rfl]
      rw [parseStringBody.eq_def]
      simp [simpleEsc, ih]
    · by_cases hbs : c = '\\'
      · subst hbs
        rw [show escapeChar '\\' = ['\\', '\\'] from by decide]
        rw [show (['\\', '\\'] : List Char) ++ (escapeList t ++ '"' :: rest)
          = '\\' :: '\\' :: (escapeList t ++ '"' :: rest) from rfl]
        rw [parseStringBody.eq_def]
        simp [simpleEsc, ih]
      · by_cases h8 : c = '\x08'
        · subst h8
          rw [show escapeChar '\x08' = ['\\', 'b'] from by decide]
          rw [show (['\\', 'b'] : List Char) ++ (escapeList t ++ '"' :: rest)
            = '\\' :: 'b' :: (escapeList t ++ '"' :: rest) from rfl]
          rw [parseStringBody.eq_def]
          simp [simpleEsc, ih]
        · by_cases h9 : c = '\x09'
          · subst h9
            rw [show escapeChar '\x09' = ['\\', 't'] from by decide]
            rw [show (['\\', 't'] : List Char) ++ (escapeList t ++ '"' :: rest)
              = '\\' :: 't' :: (escapeList t ++ '"' :: rest) from rfl]
            rw [parseStringBody.eq_def]
            simp [simpleEsc, ih]
          · by_cases h10 : c = '\x0a'
            · subst h10
              rw [show escapeChar '\x0a' = ['\\', 'n'] from by decide]
              rw [show (['\\', 'n'] : List Char) ++ (escapeList t ++ '"' :: rest)
                = '\\' :: 'n' :: (escapeList t ++ '"' :: rest) from rfl]
              rw [parseStringBody.eq_def]
              simp [simpleEsc, ih]
            · by_cases h12 : c = '\x0c'
              · subst h12
                rw [show escapeChar '\x0c' = ['\\', 'f'] from by decide]
                rw [show (['\\', 'f'] : List Char) ++ (escapeList t ++ '"' :: rest)
                  = '\\' :: 'f' :: (escapeList t ++ '"' :: rest) from rfl]
                rw [parseStringBody.eq_def]
                simp [simpleEsc, ih]
              · by_cases h13 : c = '\x0d'
                · subst h13
                  rw [show escapeChar '\x0d' = ['\\', 'r'] from by decide]
                  rw [show (['\\', 'r'] : List Char) ++ (escapeList t ++ '"' :: rest)
                    = '\\' :: 'r' :: (escapeList t ++ '"' :: rest) from rfl]
                  rw [parseStringBody.eq_def]
                  simp [simpleEsc, ih]
                · by_cases h32 : c.toNat < 32
                  · rw [show escapeChar c = ['\\', 'u', '0', '0',
                        hexDigitChar (c.toNat / 16), hexDigitChar (c.toNat % 16)] from by
                      simp only [escapeChar, if_neg hq, if_neg hbs, if_neg h8,
                        if_neg h9, if_neg h10, if_neg h12, if_neg h13, if_pos h32]]
                    rw [show (['\\', 'u', '0', '0', hexDigitChar (c.toNat / 16),
                        hexDigitChar (c.toNat % 16)] : List Char)
                        ++ (escapeList t ++ '"' :: rest)
                      = '\\' :: 'u' :: '0' :: '0' :: hexDigitChar (c.toNat / 16)
                        :: hexDigitChar (c.toNat % 16)
                        :: (escapeList t ++ '"' :: rest) from rfl]
                    rw [parseStringBody.eq_def]
                    have hhi : hexVal (hexDigitChar (c.toNat / 16)) = some (c.toNat / 16) :=
                      hexVal_hexDigitChar _ (by omega)
                    have hlo : hexVal (hexDigitChar (c.toNat % 16)) = some (c.toNat % 16) :=
                      hexVal_hexDigitChar _ (by omega)
                    have harith : 0 * 4096 + 0 * 256 + (c.toNat / 16) * 16 + c.toNat % 16
                        = c.toNat := by omega
                    simp only [hhi, hlo, ih, show hexVal '0' = some 0 from by decide,
                      harith, Char.ofNat_toNat]
                    simp
                  · rw [show escapeChar c = [c] from by
                      simp only [escapeChar, if_neg hq, if_neg hbs, if_neg h8,
                        if_neg h9, if_neg h10, if_neg h12, if_neg h13, if_neg h32]]
                    rw [show ([c] : List Char) ++ (escapeList t ++ '"' :: rest)
                      = c :: (escapeList t ++ '"' :: rest) from rfl]
                    rw [parseStringBody.eq_def]
                    simp [hq, hbs, h32, ih]

/-! #### Printer/parser inversion: values -/

theorem encNat_cons (m : Nat) : ∃ c t, encNat m = c :: t ∧
    c ∈ ['9', '8', '7', '6', '5', '4', '3', '2', '1', '0'] := by
  by_cases h0 : m = 0
  · subst h0
    exact ⟨'0', [], rfl, by decide⟩
  · have hne : encNat m ≠ [] := by
      unfold encNat
      simp only [if_neg h0]
      simp [natDigits]
      exact natDigitsFuel_ne_nil m m h0 le_rfl
    obtain ⟨c, t, hct⟩ := List.exists_cons_of_ne_nil hne
    refine ⟨c, t, hct, ?_⟩
    have hc : c ∈ encNat m := by rw [hct]; exact List.mem_cons_self c t
    unfold encNat at hc
    simp only [if_neg h0, List.mem_reverse, List.mem_map] at hc
    obtain ⟨d, -, hd⟩ := hc
    subst hd
    have hball : ∀ m ≤ 9,
        Char.ofNat (48 + m) ∈ ['9', '8', '7', '6', '5', '4', '3', '2', '1', '0'] := by
      decide
    unfold digitToChar
    exact hball (min d 9) (Nat.min_le_right d 9)

theorem skipWs_encVal (v : JSVal) (hv : v ≠ .undefined) (rest : List Char) :
    skipWs (encVal v ++ rest) = encVal v ++ rest := by
  cases v with
  | undefined => exact absurd rfl hv
  | null => rfl
  | bool b => cases b <;> rfl
  | str s => rfl
  | num n =>
    by_cases hneg : n < 0
    · simp only [encVal, if_pos hneg]
      rfl
    · simp only [encVal, if_neg hneg]
      obtain ⟨c, t, hct, hmem⟩ := encNat_cons n.toNat
      rw [hct]
      fin_cases hmem <;> rfl

theorem parseVal_encVal (v : JSVal) (hv : v ≠ .undefined) (rest : List Char)
    (hrest : noLeadDigit rest) : parseVal (encVal v ++ rest) = some (v, rest) := by
  cases v with
  | undefined => exact absurd rfl hv
  | null => rfl
  | bool b => cases b <;> rfl
  | str s =>
    rw [show encVal (.str s) ++ rest
      = '"' :: (escapeList s.data ++ '"' :: rest) from by simp [encVal]]
    rw [show parseVal ('"' :: (escapeList s.data ++ '"' :: rest))
      = (match parseStringBody (escapeList s.data ++ '"' :: rest) with
         | some (s0, r) => some (.str ⟨s0⟩, r)
         | none => none) from rfl]
    simp only [parseStringBody_escapeList]
  | num n =>
    by_cases hneg : n < 0
    · rw [show encVal (.num n) ++ rest
        = '-' :: (encNat n.natAbs ++ rest) from by simp [encVal, hneg]]
      rw [show parseVal ('-' :: (encNat n.natAbs ++ rest))
        = (match parseNat (encNat n.natAbs ++ rest) with
           | some (m, r) => some (.num (-(m : Int)), r)
           | none => none) from rfl]
      simp only [parseNat_encNat n.natAbs rest hrest]
      have : -((n.natAbs : Nat) : Int) = n := by omega
      rw [this]
    · rw [show encVal (.num n) ++ rest = encNat n.toNat ++ rest from by
        simp [encVal, hneg]]
      obtain ⟨c, t, hct, hmem⟩ := encNat_cons n.toNat
      have hshape : encNat n.toNat ++ rest = c :: (t ++ rest) := by rw [hct]; rfl
      rw [hshape]
      have hred : parseVal (c :: (t ++ rest))
          = (match parseNat (c :: (t ++ rest)) with
             | some (m, r) => some (.num ((m : Nat) : Int), r)
             | none => none) := by
        fin_cases hmem <;> rfl
      rw [hred, ← hshape]
      simp only [parseNat_encNat n.toNat rest hrest]
      have : ((n.toNat : Nat) : Int) = n := by omega
      rw [this]

/-! #### Printer/parser inversion: members and objects -/

theorem skipWs_memberChunk_append (kv : String × JSVal) (X : List Char) :
    skipWs (memberChunk kv ++ X)
      = '"' :: (escapeList kv.1.data ++ '"' :: ':' :: ' ' :: (encVal kv.2 ++ X)) := by
  have h : memberChunk kv ++ X
      = '\n' :: ' ' :: ' ' :: ' ' :: ' ' :: '"' ::
        (escapeList kv.1.data ++ '"' :: ':' :: ' ' :: (encVal kv.2 ++ X)) := by
    simp [memberChunk, ind4]
  rw [h]
  rfl

theorem parseMember_memberChunk (kv : String × JSVal)
    (hv : kv.2 ≠ JSVal.undefined) (tail : List Char)
    (htail : noLeadDigit tail) :
    parseMember (memberChunk kv ++ tail) = some (kv, tail) := by
  obtain ⟨k, v⟩ := kv
  have hv2 : v ≠ JSVal.undefined := hv
  unfold parseMember
  rw [skipWs_memberChunk_append]
  rw [show (escapeList (k.data) ++ '"' :: ':' :: ' ' :: (encVal v ++ tail))
    = escapeList k.data ++ '"' :: (':' :: ' ' :: (encVal v ++ tail)) from rfl]
  simp only [parseStringBody_escapeList]
  have hfin : (match parseVal (skipWs (encVal v ++ tail)) with
      | none => (none : Option ((String × JSVal) × List Char))
      | some (v2, r4) => some ((⟨k.data⟩, v2), r4))
      = some ((k, v), tail) := by
    rw [skipWs_encVal v hv2 tail, parseVal_encVal v hv2 tail htail]
  exact hfin

theorem parseMembersLoop_encMembers :
    ∀ (fs : List (String × JSVal)), fs ≠ [] →
      (∀ kv ∈ fs, kv.2 ≠ JSVal.undefined) →
      ∀ rest : List Char,
        parseMembersLoop (encMembers fs ++ '\n' :: (ind2 ++ '}' :: rest))
          = some (fs, rest) := by
  intro fs
  induction fs with
  | nil => intro h; exact absurd rfl h
  | cons kv fs2 ih =>
    intro _ hvals rest
    have hkv : kv.2 ≠ JSVal.undefined := hvals kv (List.mem_cons_self kv fs2)
    cases fs2 with
    | nil =>
      rw [show encMembers [kv] = memberChunk kv from rfl]
      rw [parseMembersLoop.eq_def]
      rw [parseMember_memberChunk kv hkv ('\n' :: (ind2 ++ '}' :: rest)) (by exact rfl)]
      rfl
    | cons kv2 fs3 =>
      rw [show encMembers (kv :: kv2 :: fs3) ++ '\n' :: (ind2 ++ '}' :: rest)
        = memberChunk kv ++ (',' :: (encMembers (kv2 :: fs3) ++ '\n' :: (ind2 ++ '}' :: rest)))
          from by simp [encMembers]]
      rw [parseMembersLoop.eq_def]
      rw [parseMember_memberChunk kv hkv
        (',' :: (encMembers (kv2 :: fs3) ++ '\n' :: (ind2 ++ '}' :: rest)))
        (by exact rfl)]
      have hfin : (match parseMembersLoop
            (encMembers (kv2 :: fs3) ++ '\n' :: (ind2 ++ '}' :: rest)) with
          | some (kvs, r3) => some ((kv :: kvs : List (String × JSVal)), r3)
          | none => (none : Option (List (String × JSVal) × List Char)))
          = some (kv :: kv2 :: fs3, rest) := by
        rw [ih (by simp) (fun x hx => hvals x (List.mem_cons_of_mem kv hx)) rest]
      exact hfin

theorem mem_field_entry (x : JSVal) (k : String) (kv : String × JSVal)
    (h : kv ∈ (if x == JSVal.undefined then ([] : List (String × JSVal))
      else [(k, x)])) : kv.2 ≠ JSVal.undefined := by
  by_cases hx : (x == JSVal.undefined) = true
  · rw [if_pos hx] at h
    exact absurd h (List.not_mem_nil kv)
  · rw [if_neg hx] at h
    simp at h
    subst h
    intro he
    have hxx : x = JSVal.undefined := he
    rw [hxx] at hx
    exact hx rfl

theorem studentFields_vals (s : Student) :
    ∀ kv ∈ studentFields s, kv.2 ≠ JSVal.undefined := by
  intro kv h
  simp only [studentFields, List.mem_append] at h
  rcases h with ((h | h) | h) | h
  · exact mem_field_entry s.id "id" kv h
  · exact mem_field_entry s.firstName "firstName" kv h
  · exact mem_field_entry s.lastName "lastName" kv h
  · exact mem_field_entry s.year "year" kv h

theorem studentOfFields_studentFields (s : Student) :
    studentOfFields (studentFields s) = s := by
  obtain ⟨idv, fnv, lnv, yrv⟩ := s
  by_cases h1 : (idv == JSVal.undefined) = true <;>
  by_cases h2 : (fnv == JSVal.undefined) = true <;>
  by_cases h3 : (lnv == JSVal.undefined) = true <;>
  by_cases h4 : (yrv == JSVal.undefined) = true <;>
  simp_all [studentFields, studentOfFields, getField]

theorem encStudentObj_shape (s : Student) : ∃ Y, encStudentObj s = '{' :: Y := by
  unfold encStudentObj
  split
  · exact ⟨['}'], rfl⟩
  · exact ⟨_, rfl⟩

theorem skipWs_elemChunk_append (s : Student) (X : List Char) :
    ∃ Y, skipWs (elemChunk s ++ X) = '{' :: Y := by
  obtain ⟨T, hT⟩ := encStudentObj_shape s
  refine ⟨T ++ X, ?_⟩
  rw [show elemChunk s ++ X = '\n' :: ' ' :: ' ' :: (encStudentObj s ++ X) from by
    simp [elemChunk, ind2]]
  rw [hT]
  rfl

theorem parseStudent_elemChunk (s : Student) (rest : List Char) :
    parseStudent (elemChunk s ++ rest) = some (s, rest) := by
  have hobj : parseObjFields (elemChunk s ++ rest) = some (studentFields s, rest) := by
    unfold parseObjFields
    cases hfs : studentFields s with
    | nil =>
      have henc : encStudentObj s = ['{', '}'] := by
        unfold encStudentObj
        rw [hfs]
      have hin : elemChunk s ++ rest = '\n' :: ' ' :: ' ' :: ('{' :: '}' :: rest) := by
        rw [show elemChunk s ++ rest = '\n' :: ' ' :: ' ' :: (encStudentObj s ++ rest) from by
          simp [elemChunk, ind2]]
        rw [henc]
        rfl
      rw [hin]
      rfl
    | cons f fs2 =>
      have henc : encStudentObj s
          = '{' :: (encMembers (f :: fs2) ++ '\n' :: (ind2 ++ ['}'])) := by
        unfold encStudentObj
        rw [hfs]
      have hin : elemChunk s ++ rest
          = '\n' :: ' ' :: ' ' ::
            ('{' :: (encMembers (f :: fs2) ++ '\n' :: (ind2 ++ '}' :: rest))) := by
        rw [show elemChunk s ++ rest = '\n' :: ' ' :: ' ' :: (encStudentObj s ++ rest) from by
          simp [elemChunk, ind2]]
        rw [henc]
        simp
      rw [hin]
      have hZ : ∃ Z, skipWs (encMembers (f :: fs2) ++ '\n' :: (ind2 ++ '}' :: rest))
          = '"' :: Z := by
        cases fs2 with
        | nil =>
          exact ⟨_, by
            rw [show encMembers [f] ++ '\n' :: (ind2 ++ '}' :: rest)
              = memberChunk f ++ ('\n' :: (ind2 ++ '}' :: rest)) from rfl,
              skipWs_memberChunk_append]⟩
        | cons g gs =>
          exact ⟨_, by
            rw [show encMembers (f :: g :: gs) ++ '\n' :: (ind2 ++ '}' :: rest)
              = memberChunk f
                ++ (',' :: (encMembers (g :: gs) ++ '\n' :: (ind2 ++ '}' :: rest))) from by
                simp [encMembers],
              skipWs_memberChunk_append]⟩
      obtain ⟨Z, hZ⟩ := hZ
      rw [show skipWs ('\n' :: ' ' :: ' ' ::
          ('{' :: (encMembers (f :: fs2) ++ '\n' :: (ind2 ++ '}' :: rest))))
        = '{' :: (encMembers (f :: fs2) ++ '\n' :: (ind2 ++ '}' :: rest)) from rfl]
      simp only [hZ, parseMembersLoop_encMembers (f :: fs2) (by simp)
        (by rw [← hfs]; exact studentFields_vals s) rest, hfs]
      rfl
  unfold parseStudent
  rw [hobj]
  simp only [studentOfFields_studentFields]

theorem parseElemsLoop_encElems :
    ∀ (l : List Student), l ≠ [] → ∀ rest : List Char,
      parseElemsLoop (encElems l ++ '\n' :: ']' :: rest) = some (l, rest) := by
  intro l
  induction l with
  | nil => intro h; exact absurd rfl h
  | cons s l2 ih =>
    intro _ rest
    cases l2 with
    | nil =>
      rw [show encElems [s] ++ '\n' :: ']' :: rest
        = elemChunk s ++ ('\n' :: ']' :: rest) from rfl]
      rw [parseElemsLoop.eq_def]
      rw [parseStudent_elemChunk s ('\n' :: ']' :: rest)]
      rfl
    | cons s2 l3 =>
      rw [show encElems (s :: s2 :: l3) ++ '\n' :: ']' :: rest
        = elemChunk s ++ (',' :: (encElems (s2 :: l3) ++ '\n' :: ']' :: rest)) from by
          simp [encElems]]
      rw [parseElemsLoop.eq_def]
      rw [parseStudent_elemChunk s (',' :: (encElems (s2 :: l3) ++ '\n' :: ']' :: rest))]
      have hfin : (match parseElemsLoop (encElems (s2 :: l3) ++ '\n' :: ']' :: rest) with
          | some (sts, r3) => some ((s :: sts : List Student), r3)
          | none => (none : Option (List Student × List Char)))
          = some (s :: s2 :: l3, rest) := by
        rw [ih (by simp) rest]
      exact hfin

theorem readDB_writeDB (l : List Student) : readDB (writeDB l) = some l := by
  cases l with
  | nil => decide
  | cons s l2 =>
    rw [show writeDB (s :: l2) = '[' :: (encElems (s :: l2) ++ ['\n', ']']) from rfl]
    unfold readDB parseDB
    have hY : ∃ Y, skipWs (encElems (s :: l2) ++ ['\n', ']']) = '{' :: Y := by
      cases l2 with
      | nil =>
        rw [show encElems [s] ++ ['\n', ']'] = elemChunk s ++ ['\n', ']'] from rfl]
        exact skipWs_elemChunk_append s ['\n', ']']
      | cons s2 l3 =>
        rw [show encElems (s :: s2 :: l3) ++ ['\n', ']']
          = elemChunk s ++ (',' :: (encElems (s2 :: l3) ++ ['\n', ']'])) from by
            simp [encElems]]
        exact skipWs_elemChunk_append s _
    obtain ⟨Y, hY⟩ := hY
    have hloop : parseElemsLoop (encElems (s :: l2) ++ ['\n', ']'])
        = some (s :: l2, []) := by
      rw [show (encElems (s :: l2) ++ ['\n', ']'] : List Char)
        = encElems (s :: l2) ++ '\n' :: ']' :: [] from rfl]
      exact parseElemsLoop_encElems (s :: l2) (by simp) []
    rw [show skipWs ('[' :: (encElems (s :: l2) ++ ['\n', ']']))
      = '[' :: (encElems (s :: l2) ++ ['\n', ']']) from rfl]
    simp only [hY, hloop]
    rfl

/-- C9: round trip — for any collection obtained from a successful
`readDB` (`JSON.parse`), serializing it with `writeDB`
(`JSON.stringify(_, null, 2)`) and parsing the written text again
yields the same collection. -/
theorem c9_save_load_roundtrip (text : List Char) (l : List Student)
    (hload : readDB text = some l) : readDB (writeDB l) = some l :=
  readDB_writeDB l

/-- C9 witness: the persisted text `[]` loads as the empty collection,
and saving then reloading it reproduces it. -/
theorem c9_witness :
    readDB ['[', ']'] = some [] ∧ readDB (writeDB []) = some [] :=
  ⟨by decide, c9_save_load_roundtrip ['[', ']'] [] (by decide)⟩

end StudentApp
